import Mathlib

/-!
Verification development for `spark-error-selector` (src/app.py).

The program consumes batches of messages from a Kafka stream.  For each
batch, `FilterStreamProcessor.configure_processing` registers the callback
`send_filtered` (app.py lines 66-84), which for every message of the batch:
increments the `totalcount` accumulator, encodes the message with
`r.encode('ascii', 'backslashreplace')` (which may raise), tests whether the
encoded record contains one of the `FILTER_LIST` keywords, and if so sends
the record to the output topic and increments the `filtercount` accumulator.
A per-message `try/except` prints a fixed notice and the exception text (not
the message) and continues with the next message.  After the loop, a JSON snapshot of the two accumulators is sent to
the count topic and the producer is flushed; these two calls are outside the
per-message `try`.

The embedding below models the callback's observable behaviour.  A message
carries, besides its raw payload, the outcome of the two fallible external
operations touching it: whether the `encode` call succeeds (and the encoded
record it yields), and whether the `producer.send` call for its record
raises.  Broker-connection construction failure (line 68) aborts the batch
before any message is processed and is outside the properties treated here.
-/

/-- A message of one batch, together with the behaviour of the external
operations on it: `encodeOk` is whether `r.encode('ascii','backslashreplace')`
returns (rather than raises), `encoded` is the record it returns when it does,
`sendRaises` is whether `producer.send(output_topic, record)` raises when
called for this record, and `excText` is the text `str(e)` of the exception
the `try` body raises for this message, when it raises one. -/
structure Msg where
  raw : String
  encodeOk : Bool
  encoded : String
  sendRaises : Bool
  excText : String
deriving Repr, DecidableEq

/-- The observable state of the pipeline: the two Spark accumulators
`totalcount` and `filtercount`, the records sent to the output topic, the
payloads sent to the count topic, and the lines printed by the per-message
`except` block, in order.  The `except` block prints a fixed notice and the
exception text only; the offending message appears in neither line. -/
structure ProcState where
  total : Nat
  filtered : Nat
  outputTopic : List String
  countTopic : List String
  logs : List String
deriving Repr, DecidableEq

/-- Process start: both accumulators are created at 0 (app.py lines 86-87)
and nothing has been published or logged. -/
def initState : ProcState := ⟨0, 0, [], [], []⟩

/-- `FilterStreamProcessor.FILTER_LIST` (app.py lines 25-33). -/
def FILTER_LIST : List String :=
  ["ERROR", "Error", "error", "WARN", "warn", "failed", "failure"]

/-- `prefixAt w s` is whether `w` occurs at the very start of `s`. -/
def prefixAt : List Char → List Char → Bool
  | [], _ => true
  | _ :: _, [] => false
  | a :: as, b :: bs => a == b && prefixAt as bs

/-- `containsSub w s` is Python's `w in s` on strings: whether `w` occurs as
a contiguous substring of `s` at some position. -/
def containsSub (w : List Char) : List Char → Bool
  | [] => prefixAt w []
  | b :: bs => prefixAt w (b :: bs) || containsSub w bs

/-- The classifier applied to an encoded record:
`any(word in record for word in FilterStreamProcessor.FILTER_LIST)`
(app.py line 76). -/
def matchesRecord (record : String) : Bool :=
  FILTER_LIST.any (fun word => containsSub word.data record.data)

/-- Whether the `try` body raises for message `r`: the `encode` call raises,
or the record matches and the `send` call raises.  (`totalcount.add(1)` and
`filtercount.add(1)` are plain local additions and never raise.) -/
def msgRaises (r : Msg) : Bool :=
  !r.encodeOk || (matchesRecord r.encoded && r.sendRaises)

/-- Whether message `r` ends up sent to the output topic and counted as
filtered: it encodes, its record matches, and the send call returns. -/
def sendOK (r : Msg) : Bool :=
  r.encodeOk && matchesRecord r.encoded && !r.sendRaises

/-- The two lines the `except` block prints when the `try` body raises for
one message (app.py lines 80-81): a fixed notice, then the exception text.
Neither line contains the offending message itself. -/
def errLines (r : Msg) : List String :=
  ["Error sending collected RDD", "Original exception: " ++ r.excText]

/-- One iteration of the loop body of `send_filtered` (app.py lines 70-81):
```
try:
    totalcount.add(1)
    record = r.encode('ascii', 'backslashreplace')
    if any(word in record for word in FilterStreamProcessor.FILTER_LIST):
        producer.send(self.output_topic, record)
        filtercount.add(1)
except Exception as e:
    print('Error sending collected RDD')
    print('Original exception: ' + format of e)
```
The exception handler only prints those two lines, so a raising `encode` or
`send` leaves the state as it was at the point of the raise, plus the two
printed lines. -/
def processMessage (st : ProcState) (r : Msg) : ProcState :=
  let st := { st with total := st.total + 1 }
  if r.encodeOk then
    if matchesRecord r.encoded then
      if r.sendRaises then
        { st with logs := st.logs ++
            ["Error sending collected RDD", "Original exception: " ++ r.excText] }
      else
        { st with outputTopic := st.outputTopic ++ [r.encoded],
                  filtered := st.filtered + 1 }
    else st
  else
    { st with logs := st.logs ++
        ["Error sending collected RDD", "Original exception: " ++ r.excText] }

/-- Decimal digit character: `digitChar d` is the character for digit `d`. -/
def digitChar (d : Nat) : Char := Char.ofNat (48 + d)

/-- Decimal digits of a positive number, most significant first, prepended
to `acc`. -/
def natToDigitsAux : Nat → List Char → List Char
  | 0, acc => acc
  | n + 1, acc => natToDigitsAux ((n + 1) / 10) (digitChar ((n + 1) % 10) :: acc)
termination_by n _ => n
decreasing_by exact Nat.div_lt_self (Nat.succ_pos _) (by decide)

/-- Decimal rendering of a natural number, as Python renders an `int`. -/
def natToDigits (n : Nat) : List Char :=
  if n = 0 then ['0'] else natToDigitsAux n []

/-- Decimal rendering of a natural number as a string. -/
def natToString (n : Nat) : String := ⟨natToDigits n⟩

/-- Literal prefix of the count-snapshot payload. -/
def jHead : String := "\x7b\"counts\": \x7b\"total\": "

/-- Literal separator between the two numbers of the payload. -/
def jMid : String := ", \"filter\": "

/-- Literal suffix of the payload. -/
def jTail : String := "\x7d\x7d"

/-- `json.dumps({'counts': {'total': t, 'filter': f}})` (app.py line 82). -/
def countsJson (t f : Nat) : String :=
  jHead ++ natToString t ++ jMid ++ natToString f ++ jTail

/-- The two ways the tail of `send_filtered` can raise: the count-snapshot
`producer.send` (app.py line 83) or `producer.flush()` (line 84). -/
inductive BatchError where
  | countSendFailed
  | flushFailed
deriving Repr, DecidableEq

/-- Behaviour of the external operations at the end of one batch:
whether the count-snapshot send raises and whether the flush raises. -/
structure BatchEnv where
  countSendRaises : Bool
  flushRaises : Bool
deriving Repr, DecidableEq

/-- The whole batch callback `send_filtered` (app.py lines 66-84): the
per-message loop, then the count-snapshot publish, then the flush.  Returns
the resulting state together with the exception, if any, escaping the
callback.  The accumulators are global, so the state is returned even when
an exception escapes. -/
def send_filtered (env : BatchEnv) (st : ProcState) (rdd : List Msg) :
    ProcState × Option BatchError :=
  let st := rdd.foldl processMessage st
  if env.countSendRaises then
    (st, some BatchError.countSendFailed)
  else
    let st := { st with
      countTopic := st.countTopic ++ [countsJson st.total st.filtered] }
    if env.flushRaises then (st, some BatchError.flushFailed) else (st, none)

/-- The state of the process after a sequence of batches, starting from
process start.  Each element pairs the external behaviour at the end of the
batch with the batch's messages. -/
def runBatches (bs : List (BatchEnv × List Msg)) : ProcState :=
  bs.foldl (fun st b => (send_filtered b.1 st b.2).1) initState

/-! ### Characterization of one loop iteration -/

theorem processMessage_total (st : ProcState) (r : Msg) :
    (processMessage st r).total = st.total + 1 := by
  cases hE : r.encodeOk <;> cases hM : matchesRecord r.encoded <;>
    cases hS : r.sendRaises <;> simp [processMessage, hE, hM, hS]

theorem processMessage_filtered (st : ProcState) (r : Msg) :
    (processMessage st r).filtered = st.filtered + (if sendOK r then 1 else 0) := by
  cases hE : r.encodeOk <;> cases hM : matchesRecord r.encoded <;>
    cases hS : r.sendRaises <;> simp [processMessage, sendOK, hE, hM, hS]

theorem processMessage_outputTopic (st : ProcState) (r : Msg) :
    (processMessage st r).outputTopic =
      st.outputTopic ++ (if sendOK r then [r.encoded] else []) := by
  cases hE : r.encodeOk <;> cases hM : matchesRecord r.encoded <;>
    cases hS : r.sendRaises <;> simp [processMessage, sendOK, hE, hM, hS]

theorem processMessage_countTopic (st : ProcState) (r : Msg) :
    (processMessage st r).countTopic = st.countTopic := by
  cases hE : r.encodeOk <;> cases hM : matchesRecord r.encoded <;>
    cases hS : r.sendRaises <;> simp [processMessage, hE, hM, hS]

theorem processMessage_logs (st : ProcState) (r : Msg) :
    (processMessage st r).logs =
      st.logs ++ (if msgRaises r then errLines r else []) := by
  cases hE : r.encodeOk <;> cases hM : matchesRecord r.encoded <;>
    cases hS : r.sendRaises <;>
      simp [processMessage, msgRaises, errLines, hE, hM, hS]

/-! ### Characterization of the per-message loop -/

theorem foldl_processMessage_total (rdd : List Msg) : ∀ st : ProcState,
    (List.foldl processMessage st rdd).total = st.total + rdd.length := by
  induction rdd with
  | nil => intro st; simp
  | cons r rs ih =>
    intro st
    simp only [List.foldl_cons, ih, processMessage_total, List.length_cons]
    omega

theorem foldl_processMessage_filtered (rdd : List Msg) : ∀ st : ProcState,
    (List.foldl processMessage st rdd).filtered =
      st.filtered + List.countP sendOK rdd := by
  induction rdd with
  | nil => intro st; simp
  | cons r rs ih =>
    intro st
    simp only [List.foldl_cons, ih, processMessage_filtered, List.countP_cons]
    cases h : sendOK r
    · simp [h]
    · simp [h]
      omega

theorem foldl_processMessage_outputTopic (rdd : List Msg) : ∀ st : ProcState,
    (List.foldl processMessage st rdd).outputTopic =
      st.outputTopic ++ List.map Msg.encoded (List.filter sendOK rdd) := by
  induction rdd with
  | nil => intro st; simp
  | cons r rs ih =>
    intro st
    simp only [List.foldl_cons, ih, processMessage_outputTopic, List.filter_cons]
    cases h : sendOK r <;> simp [h]

theorem foldl_processMessage_countTopic (rdd : List Msg) : ∀ st : ProcState,
    (List.foldl processMessage st rdd).countTopic = st.countTopic := by
  induction rdd with
  | nil => intro st; simp
  | cons r rs ih =>
    intro st
    simp only [List.foldl_cons, ih, processMessage_countTopic]

theorem foldl_processMessage_logs (rdd : List Msg) : ∀ st : ProcState,
    (List.foldl processMessage st rdd).logs =
      st.logs ++ (List.filter msgRaises rdd).flatMap errLines := by
  induction rdd with
  | nil => intro st; simp
  | cons r rs ih =>
    intro st
    simp only [List.foldl_cons, ih, processMessage_logs, List.filter_cons]
    cases h : msgRaises r <;> simp [h]

/-! ### Characterization of the whole batch callback -/

theorem send_filtered_total (env : BatchEnv) (st : ProcState) (rdd : List Msg) :
    (send_filtered env st rdd).1.total = st.total + rdd.length := by
  cases hc : env.countSendRaises <;> cases hf : env.flushRaises <;>
    simp [send_filtered, hc, hf, foldl_processMessage_total]

theorem send_filtered_filtered (env : BatchEnv) (st : ProcState) (rdd : List Msg) :
    (send_filtered env st rdd).1.filtered =
      st.filtered + List.countP sendOK rdd := by
  cases hc : env.countSendRaises <;> cases hf : env.flushRaises <;>
    simp [send_filtered, hc, hf, foldl_processMessage_filtered]

theorem send_filtered_outputTopic (env : BatchEnv) (st : ProcState) (rdd : List Msg) :
    (send_filtered env st rdd).1.outputTopic =
      st.outputTopic ++ List.map Msg.encoded (List.filter sendOK rdd) := by
  cases hc : env.countSendRaises <;> cases hf : env.flushRaises <;>
    simp [send_filtered, hc, hf, foldl_processMessage_outputTopic]

theorem send_filtered_logs (env : BatchEnv) (st : ProcState) (rdd : List Msg) :
    (send_filtered env st rdd).1.logs =
      st.logs ++ (List.filter msgRaises rdd).flatMap errLines := by
  cases hc : env.countSendRaises <;> cases hf : env.flushRaises <;>
    simp [send_filtered, hc, hf, foldl_processMessage_logs]

theorem send_filtered_snd (env : BatchEnv) (st : ProcState) (rdd : List Msg) :
    (send_filtered env st rdd).2 = none ↔
      env.countSendRaises = false ∧ env.flushRaises = false := by
  cases hc : env.countSendRaises <;> cases hf : env.flushRaises <;>
    simp [send_filtered, hc, hf]

theorem send_filtered_preserves_le (env : BatchEnv) (st : ProcState) (rdd : List Msg)
    (h : st.filtered ≤ st.total) :
    (send_filtered env st rdd).1.filtered ≤ (send_filtered env st rdd).1.total := by
  rw [send_filtered_total, send_filtered_filtered]
  have hcount : List.countP sendOK rdd ≤ rdd.length := List.countP_le_length sendOK
  omega

/-! ### The classifier as a substring predicate -/

theorem prefixAt_iff (w : List Char) : ∀ s : List Char,
    prefixAt w s = true ↔ ∃ t, w ++ t = s := by
  induction w with
  | nil => intro s; simp [prefixAt]
  | cons a as ih =>
    intro s
    cases s with
    | nil =>
      simp [prefixAt]
    | cons b bs =>
      simp only [prefixAt, Bool.and_eq_true, beq_iff_eq, ih bs, List.cons_append,
        List.cons.injEq]
      constructor
      · rintro ⟨rfl, t, rfl⟩
        exact ⟨t, rfl, rfl⟩
      · rintro ⟨t, rfl, rfl⟩
        exact ⟨rfl, t, rfl⟩

theorem containsSub_iff (w : List Char) (s : List Char) :
    containsSub w s = true ↔ ∃ l t, l ++ w ++ t = s := by
  induction s with
  | nil =>
    simp [containsSub, prefixAt_iff]
  | cons b bs ih =>
    simp only [containsSub, Bool.or_eq_true, prefixAt_iff, ih]
    constructor
    · rintro (⟨t, ht⟩ | ⟨l, t, ht⟩)
      · exact ⟨[], t, by simpa using ht⟩
      · exact ⟨b :: l, t, by simp [← ht]⟩
    · rintro ⟨l, t, ht⟩
      cases l with
      | nil => exact Or.inl ⟨t, by simpa using ht⟩
      | cons x xs =>
        refine Or.inr ⟨xs, t, ?_⟩
        simp only [List.cons_append, List.cons.injEq] at ht
        exact ht.2

/-! ### Decimal rendering and parsing of the count snapshot -/

/-- Whether a character is a decimal digit. -/
def isDig (c : Char) : Bool := 48 ≤ c.toNat && c.toNat ≤ 57

/-- Strip an exact literal from the front of a character list. -/
def stripLit : List Char → List Char → Option (List Char)
  | [], s => some s
  | _ :: _, [] => none
  | a :: as, b :: bs => if a == b then stripLit as bs else none

/-- Split a character list into its maximal leading digit run and the rest. -/
def readDigits : List Char → List Char × List Char
  | [] => ([], [])
  | c :: cs =>
    if isDig c then
      let p := readDigits cs
      (c :: p.1, p.2)
    else ([], c :: cs)

/-- One step of reading a decimal number, most significant digit first. -/
def dstep (a : Nat) (c : Char) : Nat := a * 10 + (c.toNat - 48)

/-- The value of a digit run. -/
def digitsToNat (ds : List Char) : Nat := ds.foldl dstep 0

/-- Parse a count-snapshot payload: the fixed JSON skeleton around the two
decimal numbers, exactly as `countsJson` lays it out. -/
def parseCounts (s : String) : Option (Nat × Nat) :=
  (stripLit jHead.data s.data).bind fun s1 =>
    if (readDigits s1).1 = [] then none
    else
      (stripLit jMid.data (readDigits s1).2).bind fun s3 =>
        if (readDigits s3).1 = [] then none
        else
          match stripLit jTail.data (readDigits s3).2 with
          | some [] => some (digitsToNat (readDigits s1).1, digitsToNat (readDigits s3).1)
          | _ => none

theorem stripLit_append (xs r : List Char) : stripLit xs (xs ++ r) = some r := by
  induction xs with
  | nil => rfl
  | cons a as ih => simp [stripLit, ih]

theorem digitChar_toNat (d : Nat) (h : d < 10) : (digitChar d).toNat = 48 + d := by
  interval_cases d <;> decide

theorem isDig_digitChar (d : Nat) (h : d < 10) : isDig (digitChar d) = true := by
  interval_cases d <;> decide

theorem natToDigitsAux_digits : ∀ (n : Nat) (acc : List Char),
    (∀ c ∈ acc, isDig c = true) → ∀ c ∈ natToDigitsAux n acc, isDig c = true := by
  intro n
  induction n using Nat.strong_induction_on with
  | _ n ih =>
    match n with
    | 0 =>
      intro acc hacc
      simpa [natToDigitsAux] using hacc
    | m + 1 =>
      intro acc hacc
      rw [natToDigitsAux]
      refine ih ((m + 1) / 10) (Nat.div_lt_self (Nat.succ_pos m) (by decide)) _ ?_
      intro c hc
      rcases List.mem_cons.1 hc with rfl | hc
      · exact isDig_digitChar _ (Nat.mod_lt _ (by decide))
      · exact hacc c hc

theorem natToDigits_digits (n : Nat) : ∀ c ∈ natToDigits n, isDig c = true := by
  rw [natToDigits]
  split
  · intro c hc
    simp only [List.mem_singleton] at hc
    subst hc
    decide
  · exact natToDigitsAux_digits n [] (by simp)

theorem natToDigitsAux_length : ∀ (n : Nat) (acc : List Char),
    acc.length ≤ (natToDigitsAux n acc).length := by
  intro n
  induction n using Nat.strong_induction_on with
  | _ n ih =>
    match n with
    | 0 => intro acc; simp [natToDigitsAux]
    | m + 1 =>
      intro acc
      rw [natToDigitsAux]
      calc acc.length ≤ (digitChar ((m + 1) % 10) :: acc).length := by simp
        _ ≤ _ := ih ((m + 1) / 10) (Nat.div_lt_self (Nat.succ_pos m) (by decide)) _

theorem natToDigits_ne_nil (n : Nat) : natToDigits n ≠ [] := by
  match n with
  | 0 => decide
  | m + 1 =>
    rw [natToDigits, if_neg (Nat.succ_ne_zero m), natToDigitsAux]
    intro hcon
    have h := natToDigitsAux_length ((m + 1) / 10) [digitChar ((m + 1) % 10)]
    rw [hcon] at h
    simp at h

/-- Base of the positional value contributed by prepending in
`natToDigitsAux`: 10 to the number of digits of `n`. -/
def pw : Nat → Nat
  | 0 => 1
  | n + 1 => 10 * pw ((n + 1) / 10)
termination_by n => n
decreasing_by exact Nat.div_lt_self (Nat.succ_pos _) (by decide)

theorem foldl_dstep_natToDigitsAux (a : Nat) : ∀ (n : Nat) (acc : List Char),
    List.foldl dstep a (natToDigitsAux n acc) =
      List.foldl dstep (a * pw n + n) acc := by
  intro n
  induction n using Nat.strong_induction_on with
  | _ n ih =>
    match n with
    | 0 => intro acc; simp [natToDigitsAux, pw]
    | m + 1 =>
      intro acc
      rw [natToDigitsAux, ih ((m + 1) / 10) (Nat.div_lt_self (Nat.succ_pos m) (by decide))]
      simp only [List.foldl_cons]
      congr 1
      rw [dstep, digitChar_toNat _ (Nat.mod_lt _ (by decide))]
      conv_rhs => rw [pw]
      have hmul : a * (10 * pw ((m + 1) / 10)) = a * pw ((m + 1) / 10) * 10 := by ring
      rw [hmul]
      have hdm := Nat.div_add_mod (m + 1) 10
      generalize a * pw ((m + 1) / 10) = X
      omega

theorem digitsToNat_natToDigits (n : Nat) : digitsToNat (natToDigits n) = n := by
  by_cases h : n = 0
  · subst h; decide
  · rw [natToDigits, if_neg h]
    have hfold := foldl_dstep_natToDigitsAux 0 n []
    simpa [digitsToNat] using hfold

theorem readDigits_append (ds : List Char) (b : Char) (bs : List Char)
    (hds : ∀ c ∈ ds, isDig c = true) (hb : isDig b = false) :
    readDigits (ds ++ b :: bs) = (ds, b :: bs) := by
  induction ds with
  | nil => simp [readDigits, hb]
  | cons c cs ih =>
    have hc : isDig c = true := hds c (by simp)
    have hrest : readDigits (cs ++ b :: bs) = (cs, b :: bs) :=
      ih (fun x hx => hds x (by simp [hx]))
    simp [readDigits, hc, hrest]

theorem countsJson_data (t f : Nat) :
    (countsJson t f).data =
      jHead.data ++ (natToDigits t ++ (jMid.data ++ (natToDigits f ++ jTail.data))) := by
  simp [countsJson, natToString, String.data_append]

theorem parseCounts_countsJson (t f : Nat) :
    parseCounts (countsJson t f) = some (t, f) := by
  have hm : jMid.data = ',' :: (" \"filter\": ".data) := by decide
  have htl : jTail.data = '\x7d' :: ['\x7d'] := by decide
  have h1 : stripLit jHead.data ((countsJson t f).data) =
      some (natToDigits t ++ (jMid.data ++ (natToDigits f ++ jTail.data))) := by
    rw [countsJson_data]
    exact stripLit_append _ _
  have h2 : readDigits (natToDigits t ++ (jMid.data ++ (natToDigits f ++ jTail.data))) =
      (natToDigits t, jMid.data ++ (natToDigits f ++ jTail.data)) := by
    simp only [hm, List.cons_append]
    exact readDigits_append (natToDigits t) ',' _ (natToDigits_digits t) (by decide)
  have h3 : stripLit jMid.data (jMid.data ++ (natToDigits f ++ jTail.data)) =
      some (natToDigits f ++ jTail.data) := stripLit_append _ _
  have h4 : readDigits (natToDigits f ++ jTail.data) = (natToDigits f, jTail.data) := by
    simp only [htl]
    exact readDigits_append (natToDigits f) '\x7d' _ (natToDigits_digits f) (by decide)
  have h5 : stripLit jTail.data jTail.data = some [] := by
    have := stripLit_append jTail.data []
    simpa using this
  rw [parseCounts, h1]
  simp only [Option.some_bind]
  rw [h2]
  simp only [if_neg (natToDigits_ne_nil t)]
  rw [h3]
  simp only [Option.some_bind]
  rw [h4]
  simp only [if_neg (natToDigits_ne_nil f)]
  rw [h5]
  simp [digitsToNat_natToDigits]

/-! ### Remaining batch-level helpers -/

theorem send_filtered_countTopic (env : BatchEnv) (st : ProcState) (rdd : List Msg)
    (hc : env.countSendRaises = false) :
    (send_filtered env st rdd).1.countTopic =
      st.countTopic ++
        [countsJson (send_filtered env st rdd).1.total (send_filtered env st rdd).1.filtered] := by
  cases hf : env.flushRaises <;>
    simp [send_filtered, hc, hf, foldl_processMessage_countTopic]

theorem runBatches_le (bs : List (BatchEnv × List Msg)) :
    (runBatches bs).filtered ≤ (runBatches bs).total := by
  rw [runBatches]
  have h : ∀ (l : List (BatchEnv × List Msg)) (st : ProcState),
      st.filtered ≤ st.total →
      (l.foldl (fun st b => (send_filtered b.1 st b.2).1) st).filtered ≤
        (l.foldl (fun st b => (send_filtered b.1 st b.2).1) st).total := by
    intro l
    induction l with
    | nil => intro st hst; simpa
    | cons b l ih =>
      intro st hst
      exact ih _ (send_filtered_preserves_le b.1 st b.2 hst)
  exact h bs initState (Nat.le_refl 0)

/-! ### Concrete fixtures used by counterexamples and witnesses -/

/-- A message whose `encode('ascii', 'backslashreplace')` call raises
(spec scenario 4: a payload with an unencodable character). -/
def mBadEncode : Msg :=
  ⟨"caf\xe9 \\xe9", false, "", false,
    "UnicodeDecodeError: ascii codec cannot decode byte 0xe9 in position 3"⟩

/-- A matching message for which `producer.send` raises. -/
def mSendRaise : Msg :=
  ⟨"ERROR: broker gone", true, "ERROR: broker gone", true,
    "KafkaTimeoutError: batch expired"⟩

/-- A matching message processed without failure. -/
def mErr : Msg :=
  ⟨"something failed here", true, "something failed here", false, ""⟩

/-- A non-matching message processed without failure. -/
def mOk : Msg := ⟨"all good", true, "all good", false, ""⟩

/-- Two distinct messages whose `encode` calls raise with the same exception
text: the same undecodable byte at the same position, different payloads
elsewhere.  Their `except`-block output is identical. -/
def mBad1 : Msg :=
  ⟨"caf\xe9 one", false, "", false,
    "UnicodeDecodeError: ascii codec cannot decode byte 0xe9 in position 3"⟩

/-- The second of the pair: a different payload, the same exception text. -/
def mBad2 : Msg :=
  ⟨"caf\xe9 two", false, "", false,
    "UnicodeDecodeError: ascii codec cannot decode byte 0xe9 in position 3"⟩

/-- End-of-batch behaviour with no failure. -/
def envOK : BatchEnv := ⟨false, false⟩

theorem countP_sendOK_eq (rdd : List Msg) (h : ∀ m ∈ rdd, msgRaises m = false) :
    List.countP sendOK rdd = List.countP (fun m => matchesRecord m.encoded) rdd := by
  induction rdd with
  | nil => rfl
  | cons r rs ih =>
    have hr := h r (by simp)
    have hrs := ih (fun m hm => h m (by simp [hm]))
    simp only [List.countP_cons, hrs]
    congr 1
    cases hE : r.encodeOk <;> cases hM : matchesRecord r.encoded <;>
      cases hS : r.sendRaises <;> simp_all [msgRaises, sendOK]

/-! ### The claims -/

/-- C1, counterexample: the claim says `total` increases by exactly the
number of successfully encoded messages.  On a one-message batch whose
`encode` call raises, zero messages encode successfully yet `total` still
increases by one, because `totalcount.add(1)` runs before the `encode` call
(app.py line 71 before line 75). -/
theorem C1_counterexample :
    ¬ ((send_filtered envOK initState [mBadEncode]).1.total =
        initState.total + (List.filter (fun m => m.encodeOk) [mBadEncode]).length) := by
  decide

/-- C1, amended: for every batch, `total` increases by exactly the number of
messages in the batch, whether or not their encoding succeeds. -/
theorem C1_total_counts_all_messages (env : BatchEnv) (st : ProcState) (rdd : List Msg) :
    (send_filtered env st rdd).1.total = st.total + rdd.length :=
  send_filtered_total env st rdd

/-- C2, counterexample: the claim says a matched message is counted as
filtered even when the send call itself raises.  `mSendRaise` is matched and
its send call raises, yet `filtered` is unchanged: the raise jumps to the
`except` block before `filtercount.add(1)` (app.py lines 77-78). -/
theorem C2_counterexample :
    matchesRecord mSendRaise.encoded = true ∧ mSendRaise.sendRaises = true ∧
    (processMessage initState mSendRaise).filtered = initState.filtered := by
  decide

/-- C2, amended: for every matched, successfully encoded message, `filtered`
is incremented exactly when the `producer.send` call returns without raising;
if the send call itself raises, the increment is skipped.  (A delivery
failure reported only after `send` returns its future is invisible here and
still leaves the message counted.) -/
theorem C2_filtered_increment_requires_send_return (st : ProcState) (r : Msg)
    (hE : r.encodeOk = true) (hM : matchesRecord r.encoded = true) :
    (processMessage st r).filtered = st.filtered + (if r.sendRaises then 0 else 1) := by
  rw [processMessage_filtered]
  cases hS : r.sendRaises <;> simp [sendOK, hE, hM, hS]

theorem C2_witness :
    mSendRaise.encodeOk = true ∧ matchesRecord mSendRaise.encoded = true ∧
    (processMessage initState mSendRaise).filtered =
      initState.filtered + (if mSendRaise.sendRaises then 0 else 1) :=
  ⟨rfl, by decide,
    C2_filtered_increment_requires_send_return initState mSendRaise rfl (by decide)⟩

/-- C3: `total` is incremented unconditionally, once per message, before
encoding and classification — in particular a message whose `encode` call
raises (`encodeOk = false`) still increments `total`. -/
theorem C3_total_incremented_unconditionally (st : ProcState) (r : Msg) :
    (processMessage st r).total = st.total + 1 :=
  processMessage_total st r

/-- C4: on a batch with no per-message encode or publish error, `total`
increases by exactly the batch size and `filtered` by exactly the number of
messages whose encoded form matches the keyword predicate. -/
theorem C4_clean_batch_exact_counts (env : BatchEnv) (st : ProcState) (rdd : List Msg)
    (h : ∀ m ∈ rdd, msgRaises m = false) :
    (send_filtered env st rdd).1.total = st.total + rdd.length ∧
    (send_filtered env st rdd).1.filtered =
      st.filtered + List.countP (fun m => matchesRecord m.encoded) rdd := by
  refine ⟨send_filtered_total env st rdd, ?_⟩
  rw [send_filtered_filtered, countP_sendOK_eq rdd h]

theorem C4_witness :
    (∀ m ∈ [mOk, mErr], msgRaises m = false) ∧
    ((send_filtered envOK initState [mOk, mErr]).1.total =
        initState.total + [mOk, mErr].length ∧
     (send_filtered envOK initState [mOk, mErr]).1.filtered =
        initState.filtered +
          List.countP (fun m => matchesRecord m.encoded) [mOk, mErr]) :=
  ⟨by decide, C4_clean_batch_exact_counts envOK initState [mOk, mErr] (by decide)⟩

/-- C5: every record on the filtered-output topic after a batch was already
there before the batch, or is the encoded form of a message of the batch
whose encoding succeeded and whose encoded form the classifier matches; a
non-matching message is never published. -/
theorem C5_output_subset_of_matches (env : BatchEnv) (st : ProcState) (rdd : List Msg)
    (r : String) (hr : r ∈ (send_filtered env st rdd).1.outputTopic) :
    r ∈ st.outputTopic ∨
      ∃ m ∈ rdd, m.encodeOk = true ∧ matchesRecord m.encoded = true ∧ r = m.encoded := by
  rw [send_filtered_outputTopic] at hr
  rcases List.mem_append.1 hr with h | h
  · exact Or.inl h
  · refine Or.inr ?_
    rcases List.mem_map.1 h with ⟨m, hm, he⟩
    rcases List.mem_filter.1 hm with ⟨hmem, hok⟩
    have hok' : (m.encodeOk = true ∧ matchesRecord m.encoded = true) ∧ m.sendRaises = false := by
      simpa [sendOK, Bool.and_eq_true, Bool.not_eq_true'] using hok
    exact ⟨m, hmem, hok'.1.1, hok'.1.2, he.symm⟩

theorem C5_witness :
    "something failed here" ∈ (send_filtered envOK initState [mOk, mErr]).1.outputTopic ∧
    ("something failed here" ∈ initState.outputTopic ∨
      ∃ m ∈ [mOk, mErr], m.encodeOk = true ∧ matchesRecord m.encoded = true ∧
        "something failed here" = m.encoded) :=
  ⟨by decide,
    C5_output_subset_of_matches envOK initState [mOk, mErr] "something failed here" (by decide)⟩

/-- C6: after every batch of every run of the process, starting from process
start, `filtered ≤ total`. -/
theorem C6_filtered_le_total (bs : List (BatchEnv × List Msg)) :
    (runBatches bs).filtered ≤ (runBatches bs).total :=
  runBatches_le bs

/-- C7: the classifier returns true iff the record contains one of the seven
keywords as a case-sensitive literal substring, with no word-boundary
requirement; as a Lean function it is pure, deterministic and total. -/
theorem C7_classifier_matches_iff (s : String) :
    matchesRecord s = true ↔
      ∃ w ∈ (["ERROR", "Error", "error", "WARN", "warn", "failed", "failure"] : List String),
        ∃ l t, l ++ w.data ++ t = s.data := by
  rw [matchesRecord, List.any_eq_true]
  constructor
  · rintro ⟨w, hw, hc⟩
    exact ⟨w, hw, (containsSub_iff w.data s.data).1 hc⟩
  · rintro ⟨w, hw, hex⟩
    exact ⟨w, hw, (containsSub_iff w.data s.data).2 hex⟩

/-- C8: when the count-snapshot send does not raise, every batch — the empty
one included — appends exactly one payload to the count topic, equal to
`countsJson` of the cumulative counters at publish time; parsing it yields
those counters, and the totals are cumulative since process start (the prior
total is carried, not reset per batch). -/
theorem C8_snapshot_per_batch (bs : List (BatchEnv × List Msg)) (env : BatchEnv)
    (rdd : List Msg) (hc : env.countSendRaises = false) :
    (send_filtered env (runBatches bs) rdd).1.countTopic =
      (runBatches bs).countTopic ++
        [countsJson (send_filtered env (runBatches bs) rdd).1.total
          (send_filtered env (runBatches bs) rdd).1.filtered] ∧
    parseCounts (countsJson (send_filtered env (runBatches bs) rdd).1.total
        (send_filtered env (runBatches bs) rdd).1.filtered) =
      some ((send_filtered env (runBatches bs) rdd).1.total,
        (send_filtered env (runBatches bs) rdd).1.filtered) ∧
    (send_filtered env (runBatches bs) rdd).1.total = (runBatches bs).total + rdd.length :=
  ⟨send_filtered_countTopic env (runBatches bs) rdd hc,
    parseCounts_countsJson _ _,
    send_filtered_total env (runBatches bs) rdd⟩

theorem C8_witness :
    envOK.countSendRaises = false ∧
    ((send_filtered envOK (runBatches []) []).1.countTopic =
      (runBatches []).countTopic ++
        [countsJson (send_filtered envOK (runBatches []) []).1.total
          (send_filtered envOK (runBatches []) []).1.filtered] ∧
     parseCounts (countsJson (send_filtered envOK (runBatches []) []).1.total
        (send_filtered envOK (runBatches []) []).1.filtered) =
      some ((send_filtered envOK (runBatches []) []).1.total,
        (send_filtered envOK (runBatches []) []).1.filtered) ∧
     (send_filtered envOK (runBatches []) []).1.total =
        (runBatches []).total + List.length ([] : List Msg)) :=
  ⟨rfl, C8_snapshot_per_batch [] envOK [] rfl⟩

/-- C9, counterexample: the claim says the log line produced for a failing
message identifies the offending message.  The `except` block (app.py lines
80-81) prints only a fixed notice and the exception text: `mBad1` and `mBad2`
are distinct failing messages whose processing prints identical lines, none
of which contains the message, so no log line identifies which message
failed. -/
theorem C9_counterexample :
    mBad1.raw ≠ mBad2.raw ∧
    msgRaises mBad1 = true ∧ msgRaises mBad2 = true ∧
    (processMessage initState mBad1).logs = (processMessage initState mBad2).logs ∧
    mBad1.raw ∉ (processMessage initState mBad1).logs := by
  decide

/-- C9, amended: when the end-of-batch send and flush do not raise, no
exception escapes the callback regardless of per-message failures; every
message is still counted (the loop reaches all of them); and each message
whose encode or send raised contributes exactly the two `except`-block lines
to the log — a fixed notice and the underlying error, which identify the
error but not the offending message.  In particular every failing message
leaves a log trace. -/
theorem C9_failures_logged_without_message (env : BatchEnv) (st : ProcState)
    (rdd : List Msg) (hc : env.countSendRaises = false) (hf : env.flushRaises = false) :
    (send_filtered env st rdd).2 = none ∧
    (send_filtered env st rdd).1.total = st.total + rdd.length ∧
    (send_filtered env st rdd).1.logs =
      st.logs ++ (List.filter msgRaises rdd).flatMap errLines ∧
    ∀ m ∈ rdd, msgRaises m = true →
      ("Original exception: " ++ m.excText) ∈ (send_filtered env st rdd).1.logs := by
  refine ⟨?_, send_filtered_total env st rdd, send_filtered_logs env st rdd, ?_⟩
  · simp [send_filtered, hc, hf]
  · intro m hm hraise
    rw [send_filtered_logs]
    refine List.mem_append.2 (Or.inr ?_)
    refine List.mem_flatMap.2 ⟨m, List.mem_filter.2 ⟨hm, hraise⟩, ?_⟩
    simp [errLines]

theorem C9_witness :
    envOK.countSendRaises = false ∧ envOK.flushRaises = false ∧
    ((send_filtered envOK initState [mBadEncode, mErr, mSendRaise]).2 = none ∧
     (send_filtered envOK initState [mBadEncode, mErr, mSendRaise]).1.total =
       initState.total + [mBadEncode, mErr, mSendRaise].length ∧
     (send_filtered envOK initState [mBadEncode, mErr, mSendRaise]).1.logs =
       initState.logs ++
         (List.filter msgRaises [mBadEncode, mErr, mSendRaise]).flatMap errLines ∧
     ∀ m ∈ [mBadEncode, mErr, mSendRaise], msgRaises m = true →
       ("Original exception: " ++ m.excText) ∈
         (send_filtered envOK initState [mBadEncode, mErr, mSendRaise]).1.logs) :=
  ⟨rfl, rfl,
    C9_failures_logged_without_message envOK initState
      [mBadEncode, mErr, mSendRaise] rfl rfl⟩

/-- C10: an exception escapes the batch callback exactly when the
count-snapshot send or the flush raises; per-message failures never escape,
since the per-message handler covers only the loop body. -/
theorem C10_tail_exception_escapes_iff (env : BatchEnv) (st : ProcState) (rdd : List Msg) :
    (send_filtered env st rdd).2 = none ↔
      env.countSendRaises = false ∧ env.flushRaises = false :=
  send_filtered_snd env st rdd
